import Mathlib

/-! Excel-Analytics-Platform, `server/index.js`.

A shallow embedding of the column-summary computation of the upload and
analytics handlers, of the `auth` and `admin` middlewares, and of the sheet
selection of the upload handler, followed by the properties proved of them.

Modelling conventions.
* A JavaScript value is a `Value α`, where `α` is the type of Numbers.  The
  handlers use three operations on Numbers: the Number of an integer (the
  literal `0`, the literal `1`, an array length), `a + b` and `a / b`.  They
  are the fields of `Arith α` and carry no laws, so whatever is proved for
  every `α` holds of IEEE-754 doubles with their rounding, infinities and
  `NaN`.
* `Exact` is exact rational arithmetic in which a division by zero gives
  `NaN`; it is the arithmetic of the statements that are about exact
  arithmetic, and of the concrete inputs.
* An object is the list of its own enumerable properties in `Object.keys`
  order.  `obj[key]` on a key that is not an own property is `undefined`
  (an inherited `Object.prototype` member is never a number, so this does
  not change any `typeof ... === 'number'` test).
* A thrown exception is `Except.error`.
-/

namespace ExcelAnalytics

/-! ## Numbers -/

/-- The operations on Numbers that the handlers use: `ofNat n` is the Number
with the integer value `n`, `add a b` is `a + b` and `div a b` is `a / b`. -/
class Arith (α : Type) where
  ofNat : Nat → α
  add : α → α → α
  div : α → α → α

/-- Exact arithmetic: a rational, or `nan` for the result of a division by
zero and of every operation on such a result. -/
inductive Exact where
  | finite (q : ℚ)
  | nan
  deriving DecidableEq

/-- Addition of `Exact`. -/
def Exact.add : Exact → Exact → Exact
  | .finite x, .finite y => .finite (x + y)
  | _, _ => .nan

/-- Division of `Exact`: `nan` when the divisor is zero. -/
def Exact.div : Exact → Exact → Exact
  | .finite x, .finite y => if y = 0 then .nan else .finite (x / y)
  | _, _ => .nan

/-- Multiplication of `Exact`, used only to state `avg * count = sum`. -/
def Exact.mul : Exact → Exact → Exact
  | .finite x, .finite y => .finite (x * y)
  | _, _ => .nan

/-- The `Exact` number of an integer. -/
def Exact.ofNat (n : Nat) : Exact :=
  .finite (n : ℚ)

instance exactArith : Arith Exact where
  ofNat := Exact.ofNat
  add := Exact.add
  div := Exact.div

/-! ## Values and objects -/

/-- JavaScript values as they occur in decoded rows and in request fields. -/
inductive Value (α : Type) where
  | undefined
  | null
  | bool (b : Bool)
  | number (x : α)
  | string (s : String)
  | object (props : List (String × Value α))

/-- The `typeof` operator. -/
def typeOf {α : Type} : Value α → String
  | .undefined => "undefined"
  | .null => "object"
  | .bool _ => "boolean"
  | .number _ => "number"
  | .string _ => "string"
  | .object _ => "object"

/-- A decoded row: own properties in `Object.keys` order. -/
abbrev Row (α : Type) := List (String × Value α)

/-- Property read `row[key]`: the first property named `key`, else `undefined`. -/
def getProp {α : Type} : Row α → String → Value α
  | [], _ => .undefined
  | (k, v) :: rest, key => if k = key then v else getProp rest key

/-- `Object.keys(row)`. -/
def objectKeys {α : Type} (row : Row α) : List String :=
  row.map Prod.fst

/-- The Number held by a value; only ever applied to values that passed the
`typeof v === 'number'` filter. -/
def numberOf {α : Type} [Arith α] : Value α → α
  | .number x => x
  | _ => Arith.ofNat 0

/-! ## Column summary (lines 121-134 and 167-178) -/

/-- One entry of the summary object: `{ count, sum, avg }`. -/
structure ColumnStats (α : Type) where
  count : Nat
  sum : α
  avg : α
  deriving DecidableEq

/-- The summary object: its properties in insertion order. -/
abbrev Summary (α : Type) := List (String × ColumnStats α)

/-- Property write `summary[key] = entry`: overwrite in place when the key is
present, append otherwise. -/
def setProp {α : Type} : Summary α → String → ColumnStats α → Summary α
  | [], key, entry => [(key, entry)]
  | (k, e) :: rest, key, entry =>
      if k = key then (k, entry) :: rest else (k, e) :: setProp rest key entry

/-- Property read `summary[key]`, `none` for `undefined`. -/
def Summary.get {α : Type} : Summary α → String → Option (ColumnStats α)
  | [], _ => none
  | (k, e) :: rest, key => if k = key then some e else Summary.get rest key

/-- The keys of the summary object. -/
def Summary.keys {α : Type} (s : Summary α) : List String :=
  s.map Prod.fst

/-- Values of a column:
`data.map(row => row[key]).filter(v => typeof v === 'number')`. -/
def columnValues {α : Type} (data : List (Row α)) (key : String) : List (Value α) :=
  (data.map (fun row => getProp row key)).filter (fun v => typeOf v == "number")

/-- Sum of a value list: `values.reduce((a, b) => a + b, 0)`, a left fold of
the Number addition started at the Number `0`. -/
def reduceSum {α : Type} [Arith α] (values : List (Value α)) : α :=
  values.foldl (fun a b => Arith.add a (numberOf b)) (Arith.ofNat 0)

/-- The guard `n || 1`: `1` when `n` is `0` (falsy), `n` otherwise. -/
def orOne (n : Nat) : Nat :=
  if n = 0 then 1 else n

/-- The object literal `{ count, sum, avg }` built from `values`: the average
is the Number division of the sum by the Number `values.length || 1`. -/
def columnStats {α : Type} [Arith α] (values : List (Value α)) : ColumnStats α where
  count := values.length
  sum := reduceSum values
  avg := Arith.div (reduceSum values) (Arith.ofNat (orOne values.length))

/-- Body of `keys.forEach(key => ...)`: one key, threading the summary. -/
def summaryStep {α : Type} [Arith α] (data : List (Row α)) (first : Row α)
    (summary : Summary α) (key : String) : Summary α :=
  if typeOf (getProp first key) == "number" then
    setProp summary key (columnStats (columnValues data key))
  else
    summary

/-- The loop `Object.keys(data[0]).forEach(...)` started from `summary = {}`;
`first` is `data[0]`. -/
def summarizeColumns {α : Type} [Arith α] (data : List (Row α)) (first : Row α) :
    Summary α :=
  (objectKeys first).foldl (summaryStep data first) []

/-- Summary of the upload handler (lines 121-134): the loop runs only when
`jsonData.length > 0`. -/
def uploadSummary {α : Type} [Arith α] (jsonData : List (Row α)) : Summary α :=
  match jsonData with
  | [] => []
  | first :: _ => summarizeColumns jsonData first

/-- Summary of the analytics handler (lines 163-178): `none` is the early
`summary: null` response on an empty collection. -/
def analyticsSummary {α : Type} [Arith α] (data : List (Row α)) : Option (Summary α) :=
  match data with
  | [] => none
  | first :: _ => some (summarizeColumns data first)

/-! ## Middlewares (lines 91-108) -/

/-- A thrown JavaScript exception. -/
inductive JsError where
  | typeError
  | other (message : String)
  deriving DecidableEq, Repr

/-- The file object that the multipart layer puts on the request. -/
structure UploadedFile where
  buffer : List Nat
  originalname : String

/-- The parts of the Express request that the handlers read:
`req.headers.authorization` (`none` when the header is absent), `req.user`
(`undefined` until `auth` assigns it) and `req.file`. -/
structure Request (α : Type) where
  authorization : Option String
  user : Value α
  file : Option UploadedFile

/-- What a middleware does with a request: call `next()` or answer
`res.status(status).json(error)` (short for an object with that error text). -/
inductive Outcome (α : Type) where
  | next (req : Request α)
  | respond (status : Nat) (error : String)

/-- Property read `v.key` for the keys read off `req.user` (`role`, `userId`):
a `TypeError` on `undefined` and on `null`, the own property on an object,
`undefined` on any other primitive. -/
def member {α : Type} (v : Value α) (key : String) : Except JsError (Value α) :=
  match v with
  | .undefined => .error .typeError
  | .null => .error .typeError
  | .object props => .ok (getProp props key)
  | _ => .ok .undefined

/-- Strict comparison `v === s` against a string literal. -/
def strictEqString {α : Type} (v : Value α) (s : String) : Bool :=
  match v with
  | .string t => t == s
  | _ => false

/-- The `auth` middleware; `verify token` stands for
`jwt.verify(token, 'SECRET_KEY')`, which throws or returns the decoded payload. -/
def auth {α : Type} (verify : Option String → Except JsError (Value α)) (req : Request α) :
    Outcome α :=
  match req.authorization with
  | none => .respond 401 "No token"
  | some authHeader =>
    if authHeader = "" then .respond 401 "No token"
    else
      let token := (authHeader.splitOn " ")[1]?
      match verify token with
      | .ok decoded => .next { req with user := decoded }
      | .error _ => .respond 401 "Invalid token"

/-- The `admin` middleware. -/
def admin {α : Type} (req : Request α) : Except JsError (Outcome α) :=
  match member req.user "role" with
  | .error err => .error err
  | .ok role =>
    if !strictEqString role "admin" then .ok (.respond 403 "Admin only")
    else .ok (.next req)

/-- The chain `auth, admin` in front of every `/api/admin` handler: `admin`
runs only when `auth` called `next()`; the handler runs exactly when the
result is `next`. -/
def adminRoute {α : Type} (verify : Option String → Except JsError (Value α))
    (req : Request α) : Except JsError (Outcome α) :=
  match auth verify req with
  | .next authed => admin authed
  | .respond status error => .ok (.respond status error)

/-! ## Upload handler (lines 111-147) -/

/-- A parsed workbook, over the library's sheet representation. -/
structure Workbook (Sheet : Type) where
  SheetNames : List String
  Sheets : List (String × Sheet)

/-- The two functions of the `xlsx` package that the upload handler calls.
The package is a dependency, not part of this repository. -/
structure Xlsx (α : Type) (Sheet : Type) where
  read : List Nat → Except JsError (Workbook Sheet)
  sheet_to_json : Option Sheet → Except JsError (List (Row α))

/-- The document built by `new Upload(...)`. -/
structure UploadRecord (α : Type) where
  user : Value α
  filename : String
  data : List (Row α)
  analysis : Summary α

/-- Responses of the upload handler: an error object with a status, or the
success object with `message`, `rowCount` and `analysis`. -/
inductive Response (α : Type) where
  | error (status : Nat) (error : String)
  | uploaded (message : String) (rowCount : Nat) (analysis : Summary α)

/-- Property key of `workbook.Sheets[sheetName]`: an `undefined` name is
coerced to the key `"undefined"`. -/
def sheetKey : Option String → String
  | some name => name
  | none => "undefined"

/-- Property read `workbook.Sheets[key]`, `none` for `undefined`. -/
def lookupSheet {Sheet : Type} : List (String × Sheet) → String → Option Sheet
  | [], _ => none
  | (k, s) :: rest, key => if k = key then some s else lookupSheet rest key

/-- The `try` block of the upload handler.  The result pairs the response
with the record handed to `save` when `save` succeeded. -/
def uploadTry {α : Type} [Arith α] {Sheet : Type} (xlsx : Xlsx α Sheet)
    (save : UploadRecord α → Except JsError Unit) (req : Request α) :
    Except JsError (Response α × Option (UploadRecord α)) :=
  match req.file with
  | none => .ok (.error 400 "No file uploaded", none)
  | some file =>
    match xlsx.read file.buffer with
    | .error err => .error err
    | .ok workbook =>
      let sheetName := workbook.SheetNames[0]?
      let sheet := lookupSheet workbook.Sheets (sheetKey sheetName)
      match xlsx.sheet_to_json sheet with
      | .error err => .error err
      | .ok jsonData =>
        let summary := uploadSummary jsonData
        match member req.user "userId" with
        | .error err => .error err
        | .ok userId =>
          let upload : UploadRecord α :=
            { user := userId, filename := file.originalname, data := jsonData,
              analysis := summary }
          match save upload with
          | .error err => .error err
          | .ok _ =>
            .ok (.uploaded "File uploaded and data stored" jsonData.length summary,
              some upload)

/-- The upload handler: the `catch` block answers 500 and nothing is saved. -/
def uploadHandler {α : Type} [Arith α] {Sheet : Type} (xlsx : Xlsx α Sheet)
    (save : UploadRecord α → Except JsError Unit) (req : Request α) :
    Response α × Option (UploadRecord α) :=
  match uploadTry xlsx save req with
  | .ok result => result
  | .error _ => (.error 500 "Failed to process file", none)

/-- An instance of the library interface for a workbook without sheets:
`read` returns empty `SheetNames` and `Sheets`, and `sheet_to_json` follows
the guard at the head of the package's function, which returns the empty
array when the sheet is `null` or `undefined`. -/
def emptyWorkbookXlsx : Xlsx Exact Unit where
  read := fun _ => .ok { SheetNames := [], Sheets := [] }
  sheet_to_json := fun _ => .ok []

/-- A persistence layer whose `save` always succeeds. -/
def saveOk : UploadRecord Exact → Except JsError Unit :=
  fun _ => .ok ()

/-! ## Specification-side vocabulary -/

/-- Spec wording "the value is numeric". -/
def isNumber {α : Type} : Value α → Bool
  | .number _ => true
  | _ => false

/-- Spec wording "those numeric values": the Numbers held at column `c`, row
by row, in row order. -/
def numericCells {α : Type} (rows : List (Row α)) (c : String) : List α :=
  rows.filterMap (fun row => match getProp row c with
    | .number x => some x
    | _ => none)

/-- Spec wording "sum of those numeric values" in floating accumulation: the
Numbers added one after the other, in order, to the Number `0`. -/
def accumulate {α : Type} [Arith α] (cells : List α) : α :=
  cells.foldl Arith.add (Arith.ofNat 0)

/-! ## Concrete inputs -/

/-- Rows `[{a:1},{a:"oops"},{a:5}]`. -/
def rowsMixed : List (Row Exact) :=
  [[("a", .number (.finite 1))], [("a", .string "oops")], [("a", .number (.finite 5))]]

/-- Rows `[{a:1,b:"x"},{a:3,b:"y"}]`. -/
def rowsTextColumn : List (Row Exact) :=
  [[("a", .number (.finite 1)), ("b", .string "x")],
   [("a", .number (.finite 3)), ("b", .string "y")]]

/-- Rows `[{a:"x"},{a:1}]`: column `a` is text in the first row and a number
in the second. -/
def rowsLateNumber : List (Row Exact) :=
  [[("a", .string "x")], [("a", .number (.finite 1))]]

/-- A request on which `auth` has not run: no header, `req.user` undefined. -/
def requestNoUser : Request Exact :=
  { authorization := none, user := .undefined, file := none }

/-- A request carrying the decoded payload `payload` as `req.user`. -/
def requestOf (payload : Value Exact) : Request Exact :=
  { authorization := some "Bearer t", user := payload, file := none }

/-- An authenticated upload request with a file. -/
def requestUpload : Request Exact :=
  { authorization := some "Bearer t",
    user := .object [("userId", .string "u1"), ("role", .string "user")],
    file := some { buffer := [], originalname := "empty.xlsx" } }

/-! ## Objects and property access -/

section Objects

variable {α : Type}

theorem typeOf_eq_number_iff (v : Value α) : typeOf v = "number" ↔ ∃ q, v = .number q := by
  cases v <;> simp [typeOf]

theorem typeOf_beq_number (v : Value α) : (typeOf v == "number") = isNumber v := by
  cases v <;> simp [typeOf, isNumber]

theorem isNumber_iff (v : Value α) : isNumber v = true ↔ ∃ q, v = .number q := by
  cases v <;> simp [isNumber]

theorem getProp_of_not_mem (row : Row α) (c : String) (h : c ∉ objectKeys row) :
    getProp row c = .undefined := by
  induction row with
  | nil => rfl
  | cons p rest ih =>
    obtain ⟨k, v⟩ := p
    simp only [objectKeys, List.map_cons, List.mem_cons, not_or] at h
    have hk : ¬ k = c := fun e => h.1 e.symm
    simp only [getProp, hk, if_false]
    exact ih h.2

theorem mem_keys_of_isNumber (row : Row α) (c : String) (h : isNumber (getProp row c) = true) :
    c ∈ objectKeys row := by
  by_contra hc
  rw [getProp_of_not_mem row c hc] at h
  simp [isNumber] at h

theorem get_setProp (s : Summary α) (k c : String) (e : ColumnStats α) :
    (setProp s k e).get c = if k = c then some e else s.get c := by
  induction s with
  | nil => simp [setProp, Summary.get]
  | cons p rest ih =>
    obtain ⟨k', e'⟩ := p
    by_cases h : k' = k
    · subst h
      by_cases hc : k' = c <;> simp [setProp, Summary.get, hc]
    · by_cases hc : k' = c
      · subst hc
        have : ¬ k = k' := fun e => h e.symm
        simp [setProp, Summary.get, h, this]
      · simp [setProp, Summary.get, h, hc, ih]

theorem keys_setProp (s : Summary α) (k : String) (e : ColumnStats α) :
    (setProp s k e).keys = if k ∈ s.keys then s.keys else s.keys ++ [k] := by
  induction s with
  | nil => simp [setProp, Summary.keys]
  | cons p rest ih =>
    obtain ⟨k', e'⟩ := p
    by_cases h : k' = k
    · subst h
      simp [setProp, Summary.keys]
    · have h' : ¬ k = k' := fun e => h e.symm
      simp only [Summary.keys] at ih
      simp only [setProp, h, if_false, Summary.keys, List.map_cons, List.mem_cons, h', false_or, ih]
      split <;> simp

theorem mem_keys_iff_get (s : Summary α) (c : String) :
    c ∈ s.keys ↔ ∃ e, s.get c = some e := by
  induction s with
  | nil => simp [Summary.keys, Summary.get]
  | cons p rest ih =>
    obtain ⟨k, e⟩ := p
    simp only [Summary.keys] at ih
    by_cases h : k = c
    · subst h; simp [Summary.keys, Summary.get]
    · have h' : ¬ c = k := fun e => h e.symm
      simp [Summary.keys, Summary.get, h, h', ih]

theorem nodup_keys_setProp (s : Summary α) (k : String) (e : ColumnStats α)
    (h : s.keys.Nodup) : (setProp s k e).keys.Nodup := by
  rw [keys_setProp]
  split
  · exact h
  · rename_i hk
    exact List.Nodup.append h (List.nodup_singleton k) (by simpa using hk)

theorem mem_iff_get_of_nodup (s : Summary α) (c : String) (e : ColumnStats α)
    (h : s.keys.Nodup) : (c, e) ∈ s ↔ s.get c = some e := by
  induction s with
  | nil => simp [Summary.get]
  | cons p rest ih =>
    obtain ⟨k, e'⟩ := p
    simp only [Summary.keys, List.map_cons, List.nodup_cons] at h
    have ih' := ih h.2
    by_cases hk : k = c
    · subst hk
      have : (k, e) ∉ rest := fun hm => h.1 (List.mem_map_of_mem Prod.fst hm)
      simp only [List.mem_cons, Prod.mk.injEq, true_and, this, or_false, Summary.get, if_true,
        Option.some.injEq]
      exact eq_comm
    · have hk' : ¬ c = k := fun e => hk e.symm
      simp [Summary.get, hk, hk', ih']

theorem numericCells_length (rows : List (Row α)) (c : String) :
    (numericCells rows c).length = rows.countP (fun row => isNumber (getProp row c)) := by
  induction rows with
  | nil => rfl
  | cons row rest ih =>
    simp only [numericCells] at ih ⊢
    by_cases hn : isNumber (getProp row c) = true
    · obtain ⟨q, hq⟩ := (isNumber_iff _).1 hn
      simp only [List.filterMap_cons, List.countP_cons, hn, if_true, List.length_cons, ← ih]
      simp only [hq, List.length_cons]
    · have hnone : (match getProp row c with
          | .number q => some q
          | _ => none) = none := by
        cases hv : getProp row c <;> simp_all [isNumber]
      simp only [List.filterMap_cons, List.countP_cons, hn, hnone]
      simpa using ih

theorem numericCells_pos_of_head (first : Row α) (rest : List (Row α)) (c : String)
    (h : isNumber (getProp first c) = true) :
    0 < (numericCells (first :: rest) c).length := by
  obtain ⟨q, hq⟩ := (isNumber_iff _).1 h
  simp [numericCells, List.filterMap_cons, hq]

end Objects

/-! ## The summary loop -/

section ColumnSummary

variable {α : Type} [Arith α]

theorem get_foldl_summaryStep (data : List (Row α)) (first : Row α) (ks : List String)
    (s : Summary α) (c : String) :
    (ks.foldl (summaryStep data first) s).get c =
      if c ∈ ks ∧ isNumber (getProp first c) = true then
        some (columnStats (columnValues data c))
      else s.get c := by
  induction ks generalizing s with
  | nil => simp
  | cons k rest ih =>
    rw [List.foldl_cons, ih]
    by_cases hk : k = c
    · subst hk
      by_cases hn : isNumber (getProp first k) = true
      · simp [summaryStep, typeOf_beq_number, hn, get_setProp]
      · simp [summaryStep, typeOf_beq_number, hn]
    · have hk' : ¬ c = k := fun e => hk e.symm
      by_cases hn : isNumber (getProp first k) = true
      · simp [summaryStep, typeOf_beq_number, hn, get_setProp, hk, hk']
      · simp [summaryStep, typeOf_beq_number, hn, hk']

theorem nodup_foldl_summaryStep (data : List (Row α)) (first : Row α) (ks : List String)
    (s : Summary α) (h : s.keys.Nodup) :
    (ks.foldl (summaryStep data first) s).keys.Nodup := by
  induction ks generalizing s with
  | nil => simpa using h
  | cons k rest ih =>
    rw [List.foldl_cons]
    apply ih
    unfold summaryStep
    split
    · exact nodup_keys_setProp s k _ h
    · exact h

theorem get_summarizeColumns (data : List (Row α)) (first : Row α) (c : String) :
    (summarizeColumns data first).get c =
      if isNumber (getProp first c) = true then
        some (columnStats (columnValues data c))
      else none := by
  unfold summarizeColumns
  rw [get_foldl_summaryStep]
  by_cases hn : isNumber (getProp first c) = true
  · simp [hn, mem_keys_of_isNumber first c hn]
  · simp [hn, Summary.get]

theorem nodup_summarizeColumns (data : List (Row α)) (first : Row α) :
    (summarizeColumns data first).keys.Nodup :=
  nodup_foldl_summaryStep data first _ [] (by simp [Summary.keys])

theorem mem_summarizeColumns_iff (data : List (Row α)) (first : Row α) (c : String)
    (e : ColumnStats α) :
    (c, e) ∈ summarizeColumns data first ↔
      isNumber (getProp first c) = true ∧ e = columnStats (columnValues data c) := by
  rw [mem_iff_get_of_nodup _ _ _ (nodup_summarizeColumns data first), get_summarizeColumns]
  by_cases hn : isNumber (getProp first c) = true
  · simp [hn, eq_comm]
  · simp [hn]

/-! ## The column statistics -/

theorem reduceSum_eq (values : List (Value α)) :
    reduceSum values = accumulate (values.map numberOf) := by
  simp [reduceSum, accumulate, List.foldl_map]

theorem columnValues_map_numberOf (data : List (Row α)) (c : String) :
    (columnValues data c).map numberOf = numericCells data c := by
  induction data with
  | nil => rfl
  | cons row rest ih =>
    simp only [columnValues, numericCells, typeOf_beq_number] at ih ⊢
    by_cases hn : isNumber (getProp row c) = true
    · obtain ⟨q, hq⟩ := (isNumber_iff _).1 hn
      simp only [List.map_cons, List.filter_cons, hn, if_true, List.filterMap_cons, ih]
      simp only [hq, numberOf]
    · have hnone : (match getProp row c with
          | .number q => some q
          | _ => none) = none := by
        cases hv : getProp row c <;> simp_all [isNumber]
      simp only [List.map_cons, List.filter_cons, hn, List.filterMap_cons, hnone]
      simpa using ih

theorem columnValues_length (data : List (Row α)) (c : String) :
    (columnValues data c).length = (numericCells data c).length := by
  rw [← columnValues_map_numberOf, List.length_map]

theorem orOne_of_pos (n : Nat) (h : 0 < n) : orOne n = n := by
  simp [orOne, Nat.pos_iff_ne_zero.1 h]

/-! ## Exact arithmetic -/

theorem exact_ofNat (n : Nat) : (Arith.ofNat n : Exact) = .finite (n : ℚ) := rfl

theorem exact_add (a b : Exact) : Arith.add a b = Exact.add a b := rfl

theorem exact_div (a b : Exact) : Arith.div a b = Exact.div a b := rfl

theorem exact_div_finite (x y : ℚ) (hy : y ≠ 0) :
    Exact.div (.finite x) (.finite y) = .finite (x / y) := by
  simp [Exact.div, hy]

theorem foldl_add_finite (qs : List ℚ) (x : ℚ) :
    (qs.map Exact.finite).foldl Arith.add (Exact.finite x) = .finite (x + qs.sum) := by
  induction qs generalizing x with
  | nil => simp
  | cons q rest ih =>
    simp only [List.map_cons, List.foldl_cons, List.sum_cons, exact_add, Exact.add]
    rw [ih, add_assoc]

theorem accumulate_finite (qs : List ℚ) :
    accumulate (qs.map Exact.finite) = .finite qs.sum := by
  have h := foldl_add_finite qs 0
  simp only [zero_add] at h
  simpa [accumulate, exact_ofNat] using h

/-! ## Claims -/

theorem mem_uploadSummary_iff (rows : List (Row α)) (c : String) (e : ColumnStats α) :
    (c, e) ∈ uploadSummary rows ↔
      ∃ first rest, rows = first :: rest ∧ isNumber (getProp first c) = true ∧
        e = columnStats (columnValues rows c) := by
  cases rows with
  | nil => simp [uploadSummary]
  | cons first rest =>
    simp only [uploadSummary, mem_summarizeColumns_iff]
    constructor
    · rintro ⟨h1, h2⟩
      exact ⟨first, rest, rfl, h1, h2⟩
    · rintro ⟨f, r, hfr, h1, h2⟩
      obtain ⟨rfl, rfl⟩ := List.cons.inj hfr
      exact ⟨h1, h2⟩

theorem analyticsSummary_eq (rows : List (Row α)) (h : rows ≠ []) :
    analyticsSummary rows = some (uploadSummary rows) := by
  cases rows with
  | nil => exact absurd rfl h
  | cons first rest => rfl

theorem rowsMixed_summary :
    uploadSummary rowsMixed = [("a", ⟨2, .finite 6, .finite 3⟩)] := by
  simp [uploadSummary, rowsMixed, summarizeColumns, objectKeys, summaryStep, getProp, typeOf,
    setProp, columnStats, columnValues, reduceSum, numberOf, orOne, exact_ofNat, exact_add,
    exact_div, Exact.add, Exact.div]
  norm_num

theorem rowsTextColumn_summary :
    uploadSummary rowsTextColumn = [("a", ⟨2, .finite 4, .finite 2⟩)] := by
  simp [uploadSummary, rowsTextColumn, summarizeColumns, objectKeys, summaryStep, getProp,
    typeOf, setProp, columnStats, columnValues, reduceSum, numberOf, orOne, exact_ofNat,
    exact_add, exact_div, Exact.add, Exact.div]
  norm_num

theorem rowsLateNumber_summary : uploadSummary rowsLateNumber = [] := by
  simp [uploadSummary, rowsLateNumber, summarizeColumns, objectKeys, summaryStep, getProp,
    typeOf]

/-- C1: for every row sequence and every column `c` with an entry in the
summary, `count` is the number of rows whose value at `c` is a number, `sum`
is the accumulation of exactly those numbers in row order (non-numbers are
skipped), `count` is not zero and `avg` is `sum / count`; the analytics
handler computes the same summary.  This holds for every Number arithmetic,
IEEE-754 doubles included.  In exact arithmetic, when those numbers are the
rationals `qs`, `sum` is their rational sum and `avg` is that sum divided by
their count. -/
theorem summary_entry_spec (rows : List (Row α)) (c : String) (e : ColumnStats α)
    (h : (c, e) ∈ uploadSummary rows) :
    e.count = rows.countP (fun row => isNumber (getProp row c)) ∧
    e.count = (numericCells rows c).length ∧
    e.sum = accumulate (numericCells rows c) ∧
    e.count ≠ 0 ∧
    e.avg = Arith.div e.sum (Arith.ofNat e.count) ∧
    analyticsSummary rows = some (uploadSummary rows) ∧
    (∀ (exactRows : List (Row Exact)) (x : ColumnStats Exact) (qs : List ℚ),
      (c, x) ∈ uploadSummary exactRows →
      numericCells exactRows c = qs.map Exact.finite →
      x.count = qs.length ∧ x.sum = .finite qs.sum ∧
        x.avg = .finite (qs.sum / (qs.length : ℚ))) := by
  have core : ∀ {β : Type} [Arith β] (rs : List (Row β)) (y : ColumnStats β),
      (c, y) ∈ uploadSummary rs →
      y.count = (numericCells rs c).length ∧ y.sum = accumulate (numericCells rs c) ∧
        y.count ≠ 0 ∧ y.avg = Arith.div y.sum (Arith.ofNat y.count) ∧ rs ≠ [] := by
    intro β _ rs y hy
    obtain ⟨first, rest, hrows, hnum, he⟩ := (mem_uploadSummary_iff rs c y).1 hy
    have hlen : (columnValues rs c).length = (numericCells rs c).length :=
      columnValues_length rs c
    have hpos : 0 < (numericCells rs c).length := by
      rw [hrows]; exact numericCells_pos_of_head first rest c hnum
    have hcount : y.count = (numericCells rs c).length := by
      rw [he]; exact hlen
    have hsum : y.sum = accumulate (numericCells rs c) := by
      rw [he]
      show reduceSum (columnValues rs c) = _
      rw [reduceSum_eq, columnValues_map_numberOf]
    refine ⟨hcount, hsum, ?_, ?_, ?_⟩
    · rw [hcount]; exact Nat.pos_iff_ne_zero.1 hpos
    · rw [he]
      show Arith.div (reduceSum (columnValues rs c))
          (Arith.ofNat (orOne (columnValues rs c).length)) =
        Arith.div (reduceSum (columnValues rs c)) (Arith.ofNat (columnValues rs c).length)
      rw [orOne_of_pos _ (hlen ▸ hpos)]
    · rw [hrows]; exact List.cons_ne_nil _ _
  obtain ⟨hcount, hsum, hne, havg, hrows⟩ := core rows e h
  refine ⟨?_, hcount, hsum, hne, havg, analyticsSummary_eq rows hrows, ?_⟩
  · rw [hcount, numericCells_length]
  · intro exactRows x qs hx hqs
    obtain ⟨hc, hs, hn, ha, _⟩ := core exactRows x hx
    have hlen : x.count = qs.length := by rw [hc, hqs, List.length_map]
    have hsumq : x.sum = .finite qs.sum := by rw [hs, hqs, accumulate_finite]
    refine ⟨hlen, hsumq, ?_⟩
    have hq : ((qs.length : Nat) : ℚ) ≠ 0 := by
      rw [← hlen]; exact_mod_cast hn
    rw [ha, hsumq, hlen, exact_ofNat, exact_div, exact_div_finite _ _ hq]

/-- Witness of C1 on rows `[{a:1},{a:"oops"},{a:5}]`: the summary is
`{a:{count:2,sum:6,avg:3}}`, and the entry of `a` counts and accumulates the
two numeric cells. -/
theorem summary_entry_spec_witness :
    uploadSummary rowsMixed = [("a", ⟨2, .finite 6, .finite 3⟩)] ∧
    numericCells rowsMixed "a" = [.finite 1, .finite 5] ∧
    (2 = rowsMixed.countP (fun row => isNumber (getProp row "a")) ∧
     2 = (numericCells rowsMixed "a").length ∧
     Exact.finite 6 = accumulate (numericCells rowsMixed "a") ∧
     (2 : Nat) ≠ 0 ∧
     Exact.finite 3 = Arith.div (Exact.finite 6) (Arith.ofNat 2) ∧
     analyticsSummary rowsMixed = some (uploadSummary rowsMixed)) :=
  have hall := summary_entry_spec rowsMixed "a" ⟨2, .finite 6, .finite 3⟩
    (by rw [rowsMixed_summary]; simp)
  ⟨rowsMixed_summary,
   by simp [numericCells, rowsMixed, getProp],
   hall.1, hall.2.1, hall.2.2.1, hall.2.2.2.1, hall.2.2.2.2.1, hall.2.2.2.2.2.1⟩

theorem mem_keys_uploadSummary_iff (rows : List (Row α)) (c : String) :
    c ∈ (uploadSummary rows).keys ↔
      ∃ first, rows.head? = some first ∧ isNumber (getProp first c) = true := by
  rw [mem_keys_iff_get]
  cases rows with
  | nil => simp [uploadSummary, Summary.get]
  | cons first rest =>
    simp only [uploadSummary, get_summarizeColumns, List.head?_cons, Option.some.injEq,
      exists_eq_left']
    by_cases hn : isNumber (getProp first c) = true <;> simp [hn]

/-- Counterexample to C2 on rows `[{a:"x"},{a:1}]`: the second row holds a
number at `a`, yet `a` is not a key of the summary, which is empty. -/
theorem keys_not_any_row :
    ¬ ("a" ∈ (uploadSummary rowsLateNumber).keys ↔
        ∃ row ∈ rowsLateNumber, isNumber (getProp row "a") = true) := by
  rw [rowsLateNumber_summary]
  intro h
  have hmem : "a" ∈ Summary.keys [] :=
    h.2 ⟨[("a", .number (.finite 1))], by simp [rowsLateNumber], by simp [getProp, isNumber]⟩
  simp [Summary.keys] at hmem

/-- C2 as amended: the candidate columns are the keys of the first row; a
column `c` is a key of the summary if and only if the first row holds a
number at `c`, and only if some row holds a number at `c`. -/
theorem keys_iff_first_row_number (rows : List (Row α)) (c : String) :
    (c ∈ (uploadSummary rows).keys ↔
      ∃ first, rows.head? = some first ∧ isNumber (getProp first c) = true) ∧
    (c ∈ (uploadSummary rows).keys →
      ∃ first, rows.head? = some first ∧ c ∈ objectKeys first) ∧
    (c ∈ (uploadSummary rows).keys →
      ∃ row ∈ rows, isNumber (getProp row c) = true) := by
  refine ⟨mem_keys_uploadSummary_iff rows c, ?_, ?_⟩
  · intro h
    obtain ⟨first, hf, hn⟩ := (mem_keys_uploadSummary_iff rows c).1 h
    exact ⟨first, hf, mem_keys_of_isNumber first c hn⟩
  · intro h
    obtain ⟨first, hf, hn⟩ := (mem_keys_uploadSummary_iff rows c).1 h
    exact ⟨first, List.mem_of_mem_head? hf, hn⟩

/-- C3: for every non-empty row sequence and every column `c`, if no row
holds a number at `c` then `c` is not a key of the summary. -/
theorem non_numeric_column_excluded (rows : List (Row α)) (c : String) (_hne : rows ≠ [])
    (hno : ∀ row ∈ rows, isNumber (getProp row c) = false) :
    c ∉ (uploadSummary rows).keys := by
  intro h
  obtain ⟨first, hf, hn⟩ := (mem_keys_uploadSummary_iff rows c).1 h
  have := hno first (List.mem_of_mem_head? hf)
  rw [hn] at this
  exact Bool.noConfusion this

/-- Witness of C3 on rows `[{a:1,b:"x"},{a:3,b:"y"}]`: the summary is
`{a:{count:2,sum:4,avg:2}}` and `b`, text in every row, is not a key. -/
theorem non_numeric_column_excluded_witness :
    uploadSummary rowsTextColumn = [("a", ⟨2, .finite 4, .finite 2⟩)] ∧
    rowsTextColumn ≠ [] ∧
    (∀ row ∈ rowsTextColumn, isNumber (getProp row "b") = false) ∧
    "b" ∉ (uploadSummary rowsTextColumn).keys :=
  have hno : ∀ row ∈ rowsTextColumn, isNumber (getProp row "b") = false := by
    intro row hrow
    simp only [rowsTextColumn, List.mem_cons, List.mem_singleton, List.not_mem_nil,
      or_false] at hrow
    rcases hrow with rfl | rfl <;> simp [getProp, isNumber]
  ⟨rowsTextColumn_summary, by simp [rowsTextColumn], hno,
   non_numeric_column_excluded rowsTextColumn "b" (by simp [rowsTextColumn]) hno⟩

theorem summary_entry_count_pos (rows : List (Row α)) (c : String) (e : ColumnStats α)
    (h : (c, e) ∈ uploadSummary rows) :
    e.count = (columnValues rows c).length ∧ 1 ≤ e.count := by
  obtain ⟨first, rest, hrows, hnum, he⟩ := (mem_uploadSummary_iff rows c e).1 h
  have hcount : e.count = (columnValues rows c).length := by rw [he]; rfl
  refine ⟨hcount, ?_⟩
  rw [hcount, columnValues_length, hrows]
  exact numericCells_pos_of_head first rest c hnum

theorem columnStats_avg_of_pos (values : List (Value α))
    (h : 0 < (columnStats values).count) :
    (columnStats values).avg =
      Arith.div (columnStats values).sum (Arith.ofNat (columnStats values).count) := by
  have hlen : 0 < values.length := h
  show Arith.div (reduceSum values) (Arith.ofNat (orOne values.length)) =
    Arith.div (reduceSum values) (Arith.ofNat values.length)
  rw [orOne_of_pos _ hlen]

theorem columnStats_of_zero (values : List (Value Exact))
    (h : (columnStats values).count = 0) :
    (columnStats values).sum = .finite 0 ∧ (columnStats values).avg = .finite 0 := by
  have hlen : values.length = 0 := h
  have hnil : values = [] := List.length_eq_zero.1 hlen
  subst hnil
  refine ⟨rfl, ?_⟩
  show Arith.div (reduceSum ([] : List (Value Exact))) (Arith.ofNat (orOne 0)) = .finite 0
  rw [show orOne 0 = 1 from rfl, exact_div]
  show Exact.div (.finite ((0 : Nat) : ℚ)) (.finite ((1 : Nat) : ℚ)) = .finite 0
  rw [exact_div_finite _ _ (by norm_num)]
  norm_num

theorem exact_div_mul (s : Exact) (n : Nat) (hn : 0 < n) :
    Exact.mul (Exact.div s (Exact.ofNat n)) (Exact.ofNat n) = s ∧
    ∀ q, s = .finite q → Exact.div s (Exact.ofNat n) = .finite (q / (n : ℚ)) := by
  have hq : (n : ℚ) ≠ 0 := by exact_mod_cast Nat.pos_iff_ne_zero.1 hn
  cases s with
  | nan => exact ⟨rfl, fun q hq2 => Exact.noConfusion hq2⟩
  | finite q =>
    refine ⟨?_, ?_⟩
    · simp only [Exact.ofNat, exact_div_finite _ _ hq, Exact.mul]
      rw [div_mul_cancel₀ _ hq]
    · intro q2 hq2
      obtain rfl := Exact.finite.inj hq2
      simp only [Exact.ofNat, exact_div_finite _ _ hq]

/-- C4: over exact rational arithmetic in which a division by zero gives
`NaN`, for every row sequence and every entry of the summary, if `count > 0`
then `avg = sum / count` and `avg * count = sum`, and if `count = 0` then
`avg = 0`.  The same holds of the entry built from any list of values; there
`count = 0` does occur (the empty list), where `sum / count` itself is `NaN`
and `avg` is `0` because the divisor is `count || 1`. -/
theorem average_invariant (rows : List (Row Exact)) (c : String) (e : ColumnStats Exact)
    (h : (c, e) ∈ uploadSummary rows) :
    (0 < e.count →
      e.avg = Exact.div e.sum (Exact.ofNat e.count) ∧
      Exact.mul e.avg (Exact.ofNat e.count) = e.sum ∧
      ∀ q, e.sum = .finite q → e.avg = .finite (q / (e.count : ℚ))) ∧
    (e.count = 0 → e.avg = .finite 0) ∧
    (∀ values : List (Value Exact),
      (0 < (columnStats values).count →
        (columnStats values).avg =
          Exact.div (columnStats values).sum (Exact.ofNat (columnStats values).count) ∧
        Exact.mul (columnStats values).avg (Exact.ofNat (columnStats values).count) =
          (columnStats values).sum) ∧
      ((columnStats values).count = 0 →
        (columnStats values).avg = .finite 0 ∧
        Exact.div (columnStats values).sum (Exact.ofNat (columnStats values).count) = .nan)) := by
  obtain ⟨first, rest, hrows, hnum, he⟩ := (mem_uploadSummary_iff rows c e).1 h
  have key : ∀ values : List (Value Exact), 0 < (columnStats values).count →
      (columnStats values).avg =
        Exact.div (columnStats values).sum (Exact.ofNat (columnStats values).count) ∧
      Exact.mul (columnStats values).avg (Exact.ofNat (columnStats values).count) =
        (columnStats values).sum ∧
      ∀ q, (columnStats values).sum = .finite q →
        (columnStats values).avg = .finite (q / ((columnStats values).count : ℚ)) := by
    intro values hpos
    have havg := columnStats_avg_of_pos values hpos
    rw [exact_div] at havg
    have hmul := exact_div_mul (columnStats values).sum (columnStats values).count hpos
    refine ⟨havg, ?_, ?_⟩
    · rw [havg]; exact hmul.1
    · intro q hq
      rw [havg]; exact hmul.2 q hq
  refine ⟨?_, ?_, ?_⟩
  · intro hpos
    rw [he] at hpos ⊢
    exact key _ hpos
  · intro hz
    rw [he] at hz ⊢
    exact (columnStats_of_zero _ hz).2
  · intro values
    refine ⟨fun hpos => ⟨(key values hpos).1, (key values hpos).2.1⟩, fun hz => ?_⟩
    have hzero := columnStats_of_zero values hz
    refine ⟨hzero.2, ?_⟩
    rw [hzero.1, hz]
    simp [Exact.ofNat, Exact.div]

/-- Witness of C4 on rows `[{a:1},{a:"oops"},{a:5}]` and the entry of `a`, and
on the entry built from the empty list of values. -/
theorem average_invariant_witness :
    ("a", (⟨2, .finite 6, .finite 3⟩ : ColumnStats Exact)) ∈ uploadSummary rowsMixed ∧
    Exact.finite 3 = Exact.div (.finite 6) (Exact.ofNat 2) ∧
    Exact.mul (.finite 3) (Exact.ofNat 2) = .finite 6 ∧
    (columnStats ([] : List (Value Exact))).count = 0 ∧
    (columnStats ([] : List (Value Exact))).avg = .finite 0 ∧
    Exact.div (columnStats ([] : List (Value Exact))).sum
      (Exact.ofNat (columnStats ([] : List (Value Exact))).count) = .nan :=
  have hmem : ("a", (⟨2, .finite 6, .finite 3⟩ : ColumnStats Exact)) ∈
      uploadSummary rowsMixed := by
    rw [rowsMixed_summary]; simp
  have hall := average_invariant rowsMixed "a" ⟨2, .finite 6, .finite 3⟩ hmem
  have hpos := hall.1 (by decide)
  have hzero := (hall.2.2 []).2 rfl
  ⟨hmem, hpos.1, hpos.2.1, rfl, hzero.1, hzero.2⟩

/-- C5: on the empty row sequence the summary is the empty object. -/
theorem summary_of_no_rows :
    uploadSummary ([] : List (Row α)) = [] ∧
    (uploadSummary ([] : List (Row α))).keys = [] ∧
    ∀ c, (uploadSummary ([] : List (Row α))).get c = none :=
  ⟨rfl, rfl, fun _ => rfl⟩

/-- C9: for every non-empty row sequence, a column `c` is a key of the
summary if and only if `c` is a key of the first row and the first row holds
a number at `c`; every key of the summary is a key of the first row; the
key set is the same whatever rows follow the first; and the analytics
handler computes the same summary. -/
theorem keys_from_first_row (rows : List (Row α)) (hne : rows ≠ []) (c : String) :
    (c ∈ (uploadSummary rows).keys ↔
      c ∈ objectKeys (rows.head hne) ∧ isNumber (getProp (rows.head hne) c) = true) ∧
    (∀ k ∈ (uploadSummary rows).keys, k ∈ objectKeys (rows.head hne)) ∧
    (∀ later : List (Row α),
      (c ∈ (uploadSummary (rows.head hne :: later)).keys ↔ c ∈ (uploadSummary rows).keys)) ∧
    analyticsSummary rows = some (uploadSummary rows) := by
  have hiff : ∀ k, k ∈ (uploadSummary rows).keys ↔ isNumber (getProp (rows.head hne) k) = true := by
    intro k
    rw [mem_keys_uploadSummary_iff]
    cases rows with
    | nil => exact absurd rfl hne
    | cons first rest => simp
  refine ⟨?_, ?_, ?_, analyticsSummary_eq rows hne⟩
  · rw [hiff]
    exact ⟨fun hn => ⟨mem_keys_of_isNumber _ c hn, hn⟩, fun hn => hn.2⟩
  · intro k hk
    exact mem_keys_of_isNumber _ k ((hiff k).1 hk)
  · intro later
    rw [hiff, mem_keys_uploadSummary_iff]
    simp

/-- Witness of C9 on rows `[{a:"x"},{a:1}]`: `a` is a key of the first row but
text there, so it is not a key of the summary although the second row holds
a number. -/
theorem keys_from_first_row_witness :
    rowsLateNumber ≠ [] ∧
    "a" ∈ objectKeys (rowsLateNumber.head (by simp [rowsLateNumber])) ∧
    isNumber (getProp (rowsLateNumber.head (by simp [rowsLateNumber])) "a") = false ∧
    "a" ∉ (uploadSummary rowsLateNumber).keys :=
  have hne : rowsLateNumber ≠ [] := by simp [rowsLateNumber]
  have hfalse : isNumber (getProp (rowsLateNumber.head hne) "a") = false := by
    simp [rowsLateNumber, getProp, isNumber]
  ⟨hne, by simp [rowsLateNumber, objectKeys], hfalse,
   fun hmem => by
     have h := ((keys_from_first_row rowsLateNumber hne "a").1.1 hmem).2
     rw [hfalse] at h
     exact Bool.noConfusion h⟩

/-- C10: every entry of the summary has `count >= 1`, so the guard
`values.length || 1` returns `values.length` itself and the divisor of the
average is not zero; likewise for the analytics handler. -/
theorem count_pos_guard_dead (rows : List (Row α)) (c : String) (e : ColumnStats α)
    (h : (c, e) ∈ uploadSummary rows) :
    1 ≤ e.count ∧
    e.count = (columnValues rows c).length ∧
    orOne (columnValues rows c).length = (columnValues rows c).length ∧
    (orOne (columnValues rows c).length : ℚ) ≠ 0 ∧
    (∀ s, analyticsSummary rows = some s → ∀ e2, (c, e2) ∈ s → 1 ≤ e2.count) := by
  have hspec := summary_entry_count_pos rows c e h
  obtain ⟨hcount, hpos⟩ := hspec
  have hor : orOne (columnValues rows c).length = (columnValues rows c).length :=
    orOne_of_pos _ (hcount ▸ hpos)
  refine ⟨hpos, hcount, hor, ?_, ?_⟩
  · rw [hor]
    exact_mod_cast Nat.pos_iff_ne_zero.1 (hcount ▸ hpos)
  · intro s hs e2 he2
    have hne : rows ≠ [] := by
      intro hnil; rw [hnil] at hs; exact Option.noConfusion hs
    rw [analyticsSummary_eq rows hne] at hs
    obtain rfl := Option.some.inj hs
    exact (summary_entry_count_pos rows c e2 he2).2

/-- Witness of C10 on rows `[{a:1},{a:"oops"},{a:5}]` and the entry of `a`. -/
theorem count_pos_guard_dead_witness :
    ("a", (⟨2, .finite 6, .finite 3⟩ : ColumnStats Exact)) ∈ uploadSummary rowsMixed ∧
    1 ≤ (⟨2, .finite 6, .finite 3⟩ : ColumnStats Exact).count ∧
    orOne (columnValues rowsMixed "a").length = (columnValues rowsMixed "a").length :=
  have hmem : ("a", (⟨2, .finite 6, .finite 3⟩ : ColumnStats Exact)) ∈
      uploadSummary rowsMixed := by
    rw [rowsMixed_summary]; simp
  have hall := count_pos_guard_dead rowsMixed "a" ⟨2, .finite 6, .finite 3⟩ hmem
  ⟨hmem, hall.1, hall.2.2.1⟩

end ColumnSummary

/-! ## Authorization -/

section Authorization

variable {α : Type}

theorem strictEqString_iff (v : Value α) (s : String) :
    strictEqString v s = true ↔ v = .string s := by
  cases v <;> simp [strictEqString]

theorem admin_of_object (req : Request α) (props : List (String × Value α))
    (hu : req.user = .object props) :
    admin req =
      if strictEqString (getProp props "role") "admin" = true then .ok (.next req)
      else .ok (.respond 403 "Admin only") := by
  simp only [admin, hu, member]
  by_cases h : strictEqString (getProp props "role") "admin" = true <;> simp [h]

/-- C6: for every role value `r` carried by the authenticated caller, the
`admin` check calls `next()` if and only if `r` is exactly the string
`'admin'`; for every other value it answers 403 `Admin only` and does not
call `next()`. -/
theorem admin_allows_iff_role_admin (req : Request α) (props : List (String × Value α))
    (r : Value α) (hu : req.user = .object props) (hr : getProp props "role" = r) :
    (admin req = .ok (.next req) ↔ r = .string "admin") ∧
    (r ≠ .string "admin" → admin req = .ok (.respond 403 "Admin only")) ∧
    (r ≠ .string "admin" → ∀ passed, admin req ≠ .ok (.next passed)) := by
  rw [admin_of_object req props hu, hr]
  by_cases h : strictEqString r "admin" = true
  · have hr2 : r = .string "admin" := (strictEqString_iff r "admin").1 h
    rw [if_pos h]
    simp [hr2]
  · have hr2 : r ≠ .string "admin" := fun e => h ((strictEqString_iff r "admin").2 e)
    rw [if_neg h]
    simp [hr2]

/-- Witness of C6: role `"user"` is denied with 403 `Admin only`, role
`"admin"` is allowed. -/
theorem admin_allows_iff_role_admin_witness :
    admin (requestOf (.object [("role", .string "user")])) = .ok (.respond 403 "Admin only") ∧
    admin (requestOf (.object [("role", .string "admin")])) =
      .ok (.next (requestOf (.object [("role", .string "admin")]))) :=
  ⟨(admin_allows_iff_role_admin (requestOf (.object [("role", .string "user")]))
      [("role", .string "user")] (.string "user") rfl (by simp [getProp])).2.1
      (by simp),
   (admin_allows_iff_role_admin (requestOf (.object [("role", .string "admin")]))
      [("role", .string "admin")] (.string "admin") rfl (by simp [getProp])).1.2 rfl⟩

/-- Counterexample to C7: on a request whose `req.user` is absent the `admin`
check throws a `TypeError`; it returns no decision. -/
theorem admin_throws_without_user :
    admin requestNoUser = .error .typeError ∧
    ¬ ∃ outcome, admin requestNoUser = .ok outcome := by
  have h : admin requestNoUser = .error .typeError := rfl
  refine ⟨h, ?_⟩
  rintro ⟨outcome, ho⟩
  rw [h] at ho
  exact Except.noConfusion ho

theorem admin_of_present_user (req : Request α) (hu : req.user ≠ .undefined)
    (hn : req.user ≠ .null) :
    ∃ role, member req.user "role" = .ok role ∧
      admin req =
        if strictEqString role "admin" = true then .ok (.next req)
        else .ok (.respond 403 "Admin only") := by
  have hmem : ∃ role, member req.user "role" = .ok role := by
    cases hv : req.user with
    | undefined => exact absurd hv hu
    | null => exact absurd hv hn
    | bool b => exact ⟨_, rfl⟩
    | number q => exact ⟨_, rfl⟩
    | string s => exact ⟨_, rfl⟩
    | object props => exact ⟨_, rfl⟩
  obtain ⟨role, hrole⟩ := hmem
  refine ⟨role, hrole, ?_⟩
  simp only [admin, hrole]
  by_cases h : strictEqString role "admin" = true <;> simp [h]

/-- C7 as amended: on every request whose `req.user` is present (neither
`undefined` nor `null`) the `admin` check does not throw: it calls `next()`
or answers 403 `Admin only`, and it answers 403 whenever the role read off
`req.user` is anything but the string `'admin'` (missing, `undefined`,
`null`, a non-string). -/
theorem admin_total_with_user (req : Request α) (hu : req.user ≠ .undefined)
    (hn : req.user ≠ .null) :
    (admin req = .ok (.next req) ∨ admin req = .ok (.respond 403 "Admin only")) ∧
    (∃ role, member req.user "role" = .ok role ∧
      (role ≠ .string "admin" → admin req = .ok (.respond 403 "Admin only"))) := by
  obtain ⟨role, hrole, hadmin⟩ := admin_of_present_user req hu hn
  by_cases h : strictEqString role "admin" = true
  · refine ⟨Or.inl (by rw [hadmin, if_pos h]), role, hrole, ?_⟩
    intro hne
    exact absurd ((strictEqString_iff role "admin").1 h) hne
  · refine ⟨Or.inr (by rw [hadmin, if_neg h]), role, hrole, ?_⟩
    intro _
    rw [hadmin, if_neg h]

/-- Witness of C7 as amended: a payload without a role, with a `null` role
and with a numeric role are all denied with 403. -/
theorem admin_total_with_user_witness :
    admin (requestOf (.object [])) = .ok (.respond 403 "Admin only") ∧
    admin (requestOf (.object [("role", .null)])) = .ok (.respond 403 "Admin only") ∧
    admin (requestOf (.object [("role", .number (.finite 1))])) = .ok (.respond 403 "Admin only") ∧
    (admin (requestOf (.string "payload")) = .ok (.next (requestOf (.string "payload"))) ∨
      admin (requestOf (.string "payload")) = .ok (.respond 403 "Admin only")) :=
  ⟨rfl, rfl, rfl,
   (admin_total_with_user (requestOf (.string "payload"))
      (by simp [requestOf]) (by simp [requestOf])).1⟩

/-- The chain `auth, admin` never throws, provided `jwt.verify` returns a
payload that is neither `undefined` nor `null` whenever it returns. -/
theorem adminRoute_never_throws (verify : Option String → Except JsError (Value α))
    (hverify : ∀ token payload, verify token = .ok payload →
      payload ≠ .undefined ∧ payload ≠ .null)
    (req : Request α) : ∃ outcome, adminRoute verify req = .ok outcome := by
  unfold adminRoute
  cases hauth : auth verify req with
  | respond status error => exact ⟨_, rfl⟩
  | next authed =>
    have huser : authed.user ≠ .undefined ∧ authed.user ≠ .null := by
      unfold auth at hauth
      split at hauth
      · exact Outcome.noConfusion hauth
      · split at hauth
        · exact Outcome.noConfusion hauth
        · dsimp only at hauth
          split at hauth
          · rename_i decoded hdec
            have hreq := Outcome.next.inj hauth
            rw [← hreq]
            exact hverify _ decoded hdec
          · exact Outcome.noConfusion hauth
    obtain ⟨role, _, hadmin⟩ := admin_of_present_user authed huser.1 huser.2
    show ∃ outcome, admin authed = .ok outcome
    rw [hadmin]
    by_cases h : strictEqString role "admin" = true
    · exact ⟨_, if_pos h⟩
    · exact ⟨_, if_neg h⟩

end Authorization

/-! ## Upload of a workbook without sheets -/

/-- Counterexample to C8: with a workbook whose sheet-name list is empty and
a `sheet_to_json` that returns the empty array for the missing sheet, the
upload handler answers success with `rowCount` 0 and saves a record. -/
theorem zero_sheets_upload_succeeds :
    (∃ workbook, emptyWorkbookXlsx.read [] = .ok workbook ∧ workbook.SheetNames = []) ∧
    uploadHandler emptyWorkbookXlsx saveOk requestUpload =
      (.uploaded "File uploaded and data stored" 0 [],
       some { user := .string "u1", filename := "empty.xlsx", data := [], analysis := [] }) ∧
    uploadHandler emptyWorkbookXlsx saveOk requestUpload ≠
      (.error 500 "Failed to process file", none) := by
  have h : uploadHandler emptyWorkbookXlsx saveOk requestUpload =
      (.uploaded "File uploaded and data stored" 0 [],
       some { user := .string "u1", filename := "empty.xlsx", data := [], analysis := [] }) := by
    simp [uploadHandler, uploadTry, emptyWorkbookXlsx, saveOk, requestUpload, member, getProp,
      uploadSummary]
  refine ⟨⟨_, rfl, rfl⟩, h, ?_⟩
  rw [h]
  intro heq
  have := congrArg Prod.fst heq
  exact Response.noConfusion this

/-- C8 as amended: when the parsed workbook has an empty sheet-name list the
handler reads `workbook.Sheets["undefined"]` and hands the result to
`sheet_to_json`.  If that call throws, the handler answers 500 and saves
nothing; if it returns rows, the handler goes on as for any workbook and,
once the user id is read and `save` succeeds, answers success with that row
count and has saved the record. -/
theorem zero_sheets_delegated {α : Type} [Arith α] {Sheet : Type} (xlsx : Xlsx α Sheet)
    (save : UploadRecord α → Except JsError Unit) (req : Request α) (file : UploadedFile)
    (workbook : Workbook Sheet) (hfile : req.file = some file)
    (hread : xlsx.read file.buffer = .ok workbook) (hzero : workbook.SheetNames = []) :
    (∀ err, xlsx.sheet_to_json (lookupSheet workbook.Sheets "undefined") = .error err →
      uploadHandler xlsx save req = (.error 500 "Failed to process file", none)) ∧
    (∀ jsonData userId,
      xlsx.sheet_to_json (lookupSheet workbook.Sheets "undefined") = .ok jsonData →
      member req.user "userId" = .ok userId →
      save { user := userId, filename := file.originalname, data := jsonData,
             analysis := uploadSummary jsonData } = .ok () →
      uploadHandler xlsx save req =
        (.uploaded "File uploaded and data stored" jsonData.length (uploadSummary jsonData),
         some { user := userId, filename := file.originalname, data := jsonData,
                analysis := uploadSummary jsonData })) := by
  constructor
  · intro err herr
    simp [uploadHandler, uploadTry, hfile, hread, hzero, sheetKey, herr]
  · intro jsonData userId hjson huser hsave
    simp [uploadHandler, uploadTry, hfile, hread, hzero, sheetKey, hjson, huser, hsave]

/-- Witness of C8 as amended, on the request and library of the
counterexample. -/
theorem zero_sheets_delegated_witness :
    requestUpload.file = some { buffer := [], originalname := "empty.xlsx" } ∧
    uploadHandler emptyWorkbookXlsx saveOk requestUpload =
      (.uploaded "File uploaded and data stored" ([] : List (Row Exact)).length (uploadSummary []),
       some { user := .string "u1", filename := "empty.xlsx", data := [],
              analysis := uploadSummary [] }) :=
  ⟨rfl,
   (zero_sheets_delegated emptyWorkbookXlsx saveOk requestUpload
      { buffer := [], originalname := "empty.xlsx" } { SheetNames := [], Sheets := [] }
      rfl rfl rfl).2 [] (.string "u1") rfl (by simp [requestUpload, member, getProp]) rfl⟩

end ExcelAnalytics
